import Mathlib

set_option maxRecDepth 10000

/-!
Shallow embedding of the DebugGPT core (src/DebugGPT.tsx): the language
detector `detectLanguage`, the per-language rule table `rules`, and the
analysis pass `analyzeCodeByRules` / `analyzeGeneral` / `analyze`.

Text is modelled as `List Char`.  JavaScript regexes from the source are
translated into executable matchers over `List Char`: each regex in the
source is either a plain substring test (`String.prototype.includes`), a
sequence of literals and character classes run by the small backtracking
engine `matchSeq`/`searchSeq` below, or (for the two regexes using `\b`
word boundaries and a lookahead) a bespoke position scanner.
-/

namespace DebugGPT

/-- Character class `\s` of JavaScript regexes (ECMAScript WhiteSpace and
LineTerminator code points); also the set removed by `String.prototype.trim`. -/
def isSpace (c : Char) : Bool :=
  c == ' ' || c == '\t' || c == '\n' || c == '\r' || c == '\x0b' || c == '\x0c' ||
  c == Char.ofNat 0xa0 || c == Char.ofNat 0x1680 ||
  (Char.ofNat 0x2000 ≤ c && c ≤ Char.ofNat 0x200a) ||
  c == Char.ofNat 0x2028 || c == Char.ofNat 0x2029 || c == Char.ofNat 0x202f ||
  c == Char.ofNat 0x205f || c == Char.ofNat 0x3000 || c == Char.ofNat 0xfeff

/-- Character class `\w` of JavaScript regexes: letters, digits, underscore. -/
def isWordChar (c : Char) : Bool :=
  ('a' ≤ c && c ≤ 'z') || ('A' ≤ c && c ≤ 'Z') || ('0' ≤ c && c ≤ '9') || c == '_'

/-- Line terminators, the code points NOT matched by `.` in a JavaScript regex. -/
def isLineTerm (c : Char) : Bool :=
  c == '\n' || c == '\r' || c == Char.ofNat 0x2028 || c == Char.ofNat 0x2029

/-- Does `pat` occur as a leading segment of `s`?  (First argument is the
pattern, second the text.) -/
def listStartsWith : List Char → List Char → Bool
  | [], _ => true
  | _ :: _, [] => false
  | c :: cs, d :: ds => c == d && listStartsWith cs ds

/-- Substring test, modelling JavaScript `hay.includes(pat)`. -/
def listContains : List Char → List Char → Bool
  | [], pat => listStartsWith pat []
  | c :: t, pat => listStartsWith pat (c :: t) || listContains t pat

/-- Model of `String.prototype.trim`: strip `isSpace` characters from both ends. -/
def trimText (s : List Char) : List Char :=
  ((s.dropWhile isSpace).reverse.dropWhile isSpace).reverse

/-- Regular expressions over character classes: empty word, one character
from a class, concatenation, alternation, Kleene star. -/
inductive Rgx where
  | eps : Rgx
  | cls : (Char → Bool) → Rgx
  | cat : Rgx → Rgx → Rgx
  | alt : Rgx → Rgx → Rgx
  | star : Rgx → Rgx

/-- Can the regex match the empty word? -/
def nullable : Rgx → Bool
  | .eps => true
  | .cls _ => false
  | .cat a b => nullable a && nullable b
  | .alt a b => nullable a || nullable b
  | .star _ => true

/-- Brzozowski derivative of a regex by one character. -/
def deriv : Rgx → Char → Rgx
  | .eps, _ => .cls (fun _ => false)
  | .cls p, c => if p c then .eps else .cls (fun _ => false)
  | .cat a b, c =>
      if nullable a then .alt (.cat (deriv a c) b) (deriv b c)
      else .cat (deriv a c) b
  | .alt a b, c => .alt (deriv a c) (deriv b c)
  | .star a, c => .cat (deriv a c) (.star a)

/-- Does the regex match the whole string?  (Derivative-based, structural.) -/
def matchFull : Rgx → List Char → Bool
  | r, [] => nullable r
  | r, c :: s => matchFull (deriv r c) s

/-- Concatenation of a list of regexes. -/
def seqR : List Rgx → Rgx
  | [] => .eps
  | r :: rs => .cat r (seqR rs)

/-- Literal string as a regex. -/
def litR (t : String) : Rgx := seqR (t.toList.map fun c => .cls (fun d => d == c))

/-- Any single character (used to pad anchors away). -/
def anyCh : Rgx := .cls (fun _ => true)

/-- `p+` for a character class `p`. -/
def plusC (p : Char → Bool) : Rgx := .cat (.cls p) (.star (.cls p))

/-- Unanchored `RegExp.prototype.test` of a regex with neither `^` nor `$`:
the regex may match anywhere, so pad both sides with `any*`. -/
def testR (r : Rgx) (s : List Char) : Bool :=
  matchFull (.cat (.star anyCh) (.cat r (.star anyCh))) s

/-- Test of a regex anchored at the start (`^...` with no `$`): pad only the
right side with `any*`. -/
def testStartR (r : Rgx) (s : List Char) : Bool :=
  matchFull (.cat r (.star anyCh)) s

/-- Test of a regex anchored at the end (`...$` with no `^`): pad only the
left side with `any*`. -/
def testEndR (r : Rgx) (s : List Char) : Bool :=
  matchFull (.cat (.star anyCh) r) s

/-! ### Matchers for the per-language rule regexes -/

/-- Rule regex `==[^=]` (JavaScript and TypeScript loose-equality rule). -/
def looseEqRegex (s : List Char) : Bool :=
  testR (seqR [litR "==", .cls (fun c => !(c == '='))]) s

/-- Rule regex `\bvar\b`, position check: `"var"` starts here, with a word
boundary before (tracked previous character) and after. -/
def varBoundaryAt (prev : Option Char) (s : List Char) : Bool :=
  listStartsWith "var".toList s &&
    (match prev with | none => true | some c => !isWordChar c) &&
    (match s.drop 3 with | [] => true | c :: _ => !isWordChar c)

/-- Scan all start positions for `\bvar\b`, carrying the previous character. -/
def varKeywordAux (prev : Option Char) : List Char → Bool
  | [] => false
  | c :: rest => varBoundaryAt prev (c :: rest) || varKeywordAux (some c) rest

/-- Rule regex `\bvar\b` (JavaScript var-declaration rule). -/
def varKeywordRegex (s : List Char) : Bool := varKeywordAux none s

/-- Rule regex `console\.log\([^)]*$` (JavaScript missing-semicolon rule):
anchored at the end by `$`. -/
def consoleLogRegex (s : List Char) : Bool :=
  testEndR (seqR [litR "console.log(", .star (.cls (fun c => !(c == ')')))]) s

/-- Rule regex `^.*print\s+[^()]` (Python print-parentheses rule); anchored at
the start, `.` does not cross line terminators. -/
def pyPrintRegex (s : List Char) : Bool :=
  testStartR (seqR [.star (.cls (fun c => !isLineTerm c)), litR "print",
    plusC isSpace, .cls (fun c => !(c == '(') && !(c == ')'))]) s

/-- Rule regex `^.*import \*` (Python wildcard-import rule). -/
def pyImportStarRegex (s : List Char) : Bool :=
  testStartR (seqR [.star (.cls (fun c => !isLineTerm c)), litR "import *"]) s

/-- Lookahead body `.*\balt=` of the HTML img rule, scanned from a position:
`"alt="` with a word boundary before it, reachable without crossing a line
terminator.  The boundary check happens before the advance, so a candidate at
the current position is still considered. -/
def scanForAlt (prev : Option Char) : List Char → Bool
  | [] => false
  | c :: rest =>
      (listStartsWith "alt=".toList (c :: rest) &&
        (match prev with | none => true | some d => !isWordChar d)) ||
      (!isLineTerm c && scanForAlt (some c) rest)

/-- Position check for `<img\b(?!.*\balt=)`: `"<img"` starts here, followed by
a word boundary, and the negative lookahead fails to find `\balt=`.  The
character before the lookahead region is the `g` of `<img`. -/
def imgMatchAt (s : List Char) : Bool :=
  listStartsWith "<img".toList s &&
    (match s.drop 4 with | [] => true | c :: _ => !isWordChar c) &&
    !(scanForAlt (some 'g') (s.drop 4))

/-- Rule regex `<img\b(?!.*\balt=)` (HTML missing-alt rule). -/
def imgMissingAltRegex : List Char → Bool
  | [] => false
  | c :: rest => imgMatchAt (c :: rest) || imgMissingAltRegex rest

/-- Rule regex `!important` (CSS rule): plain substring test. -/
def cssImportantRegex (s : List Char) : Bool :=
  listContains s "!important".toList

/-- Rule regex `px` (CSS rule): plain substring test. -/
def cssPxRegex (s : List Char) : Bool :=
  listContains s "px".toList

/-! ### Data model -/

/-- The `Language` union type of the source. -/
inductive Language where
  | JavaScript | Python | C | Cpp | Java | HTML | CSS | CSharp | TypeScript | Unknown
deriving DecidableEq

/-- The `ErrorType` record of the source (a Finding).  Severities are the
string literals of the source: "syntax", "logical", "warning".  `line` is
`findIndex + 1` in the infinite-loop case, hence a `Nat` that can be `0`. -/
structure ErrorType where
  line : Nat
  message : String
  suggestion : String
  type : String
  codeSnippet : Option (List Char) := none
deriving DecidableEq

/-- The `Rule` record of the source; the regex is its translated matcher. -/
structure Rule where
  regex : List Char → Bool
  type : String
  message : String
  suggestion : String

/-- The per-language rule table `rules` of the source. -/
def rules : Language → List Rule
  | .JavaScript =>
      [⟨looseEqRegex, "warning", "Loose equality (==) found.",
         "Use === for strict equality checks."⟩,
       ⟨varKeywordRegex, "warning", "Found var declaration.",
         "Use let or const for better scoping."⟩,
       ⟨consoleLogRegex, "syntax", "Possible missing semicolon.",
         "Add a semicolon at the end."⟩]
  | .TypeScript =>
      [⟨looseEqRegex, "warning", "Loose equality (==) found.",
         "Use === for strict equality checks."⟩]
  | .Python =>
      [⟨pyPrintRegex, "syntax", "Python 3 print requires parentheses.",
         "Use print() instead of print."⟩,
       ⟨pyImportStarRegex, "warning", "Wildcard import found.",
         "Avoid 'import *'. Import what you need."⟩]
  | .HTML =>
      [⟨imgMissingAltRegex, "warning", "Image missing alt attribute.",
         "Add alt for accessibility."⟩]
  | .CSS =>
      [⟨cssImportantRegex, "warning", "Avoid !important.",
         "Use more specific selectors instead."⟩,
       ⟨cssPxRegex, "warning", "Pixel units used.",
         "Consider rem/em for responsiveness."⟩]
  | .C => [] | .Cpp => [] | .Java => [] | .CSharp => [] | .Unknown => []

/-! ### Language detector -/

/-- Detector regex `(function\s*\(|=>|const\s+\w+\s*=|let\s+\w+\s*=|var\s+\w+\s*=)`. -/
def jsDetectRegex (s : List Char) : Bool :=
  testR (seqR [litR "function", .star (.cls isSpace), litR "("]) s ||
  testR (litR "=>") s ||
  testR (seqR [litR "const", plusC isSpace, plusC isWordChar, .star (.cls isSpace), litR "="]) s ||
  testR (seqR [litR "let", plusC isSpace, plusC isWordChar, .star (.cls isSpace), litR "="]) s ||
  testR (seqR [litR "var", plusC isSpace, plusC isWordChar, .star (.cls isSpace), litR "="]) s

/-- Detector regex `(def\s+\w+\s*\(|import\s+\w+|print\s*\(|from\s+\w+\s+import)`. -/
def pyDetectRegex (s : List Char) : Bool :=
  testR (seqR [litR "def", plusC isSpace, plusC isWordChar, .star (.cls isSpace), litR "("]) s ||
  testR (seqR [litR "import", plusC isSpace, plusC isWordChar]) s ||
  testR (seqR [litR "print", .star (.cls isSpace), litR "("]) s ||
  testR (seqR [litR "from", plusC isSpace, plusC isWordChar, plusC isSpace, litR "import"]) s

/-- Detector regex `(#include\s*<|printf\s*\(|int\s+main\s*\()`. -/
def cDetectRegex (s : List Char) : Bool :=
  testR (seqR [litR "#include", .star (.cls isSpace), litR "<"]) s ||
  testR (seqR [litR "printf", .star (.cls isSpace), litR "("]) s ||
  testR (seqR [litR "int", plusC isSpace, litR "main", .star (.cls isSpace), litR "("]) s

/-- Detector regex `(std::|#include\s*<|using\s+namespace|cout\s*<<)`. -/
def cppDetectRegex (s : List Char) : Bool :=
  testR (litR "std::") s ||
  testR (seqR [litR "#include", .star (.cls isSpace), litR "<"]) s ||
  testR (seqR [litR "using", plusC isSpace, litR "namespace"]) s ||
  testR (seqR [litR "cout", .star (.cls isSpace), litR "<<"]) s

/-- Detector regex `(public\s+class|System\.out\.println|import\s+java\.)`. -/
def javaDetectRegex (s : List Char) : Bool :=
  testR (seqR [litR "public", plusC isSpace, litR "class"]) s ||
  testR (litR "System.out.println") s ||
  testR (seqR [litR "import", plusC isSpace, litR "java."]) s

/-- Detector regex `(<!DOCTYPE html>|<html|<div\s|class\s*=\s*")`. -/
def htmlDetectRegex (s : List Char) : Bool :=
  testR (litR "<!DOCTYPE html>") s ||
  testR (litR "<html") s ||
  testR (seqR [litR "<div", .cls isSpace]) s ||
  testR (seqR [litR "class", .star (.cls isSpace), litR "=", .star (.cls isSpace), litR "\""]) s

/-- Detector regex `(\.\w+\s*{|#\w+\s*{|@media|color:\s*#)`. -/
def cssDetectRegex (s : List Char) : Bool :=
  testR (seqR [litR ".", plusC isWordChar, .star (.cls isSpace), litR "\x7b"]) s ||
  testR (seqR [litR "#", plusC isWordChar, .star (.cls isSpace), litR "\x7b"]) s ||
  testR (litR "@media") s ||
  testR (seqR [litR "color:", .star (.cls isSpace), litR "#"]) s

/-- Detector regex `(using\s+System|namespace\s+\w+|Console\.WriteLine)`. -/
def csDetectRegex (s : List Char) : Bool :=
  testR (seqR [litR "using", plusC isSpace, litR "System"]) s ||
  testR (seqR [litR "namespace", plusC isSpace, plusC isWordChar]) s ||
  testR (litR "Console.WriteLine") s

/-- Detector regex `(type\s+\w+\s*=|interface\s+\w+\s*{|:\s*\w+\s*[;=])`. -/
def tsDetectRegex (s : List Char) : Bool :=
  testR (seqR [litR "type", plusC isSpace, plusC isWordChar, .star (.cls isSpace), litR "="]) s ||
  testR (seqR [litR "interface", plusC isSpace, plusC isWordChar, .star (.cls isSpace), litR "\x7b"]) s ||
  testR (seqR [litR ":", .star (.cls isSpace), plusC isWordChar, .star (.cls isSpace),
    .cls (fun c => c == ';' || c == '=')]) s

/-- One entry of the detector's ordered `patterns` array. -/
structure Candidate where
  pattern : List Char → Bool
  language : Language

/-- The ordered `patterns` array inside `detectLanguage`. -/
def patterns : List Candidate :=
  [⟨jsDetectRegex, .JavaScript⟩, ⟨pyDetectRegex, .Python⟩, ⟨cDetectRegex, .C⟩,
   ⟨cppDetectRegex, .Cpp⟩, ⟨javaDetectRegex, .Java⟩, ⟨htmlDetectRegex, .HTML⟩,
   ⟨cssDetectRegex, .CSS⟩, ⟨csDetectRegex, .CSharp⟩, ⟨tsDetectRegex, .TypeScript⟩]

/-- The detector's `for (const ... of patterns)` loop: first match wins,
`Unknown` when the list is exhausted. -/
def findLang : List Candidate → List Char → Language
  | [], _ => .Unknown
  | c :: rest, t => if c.pattern t then c.language else findLang rest t

/-- The `detectLanguage` function of the source. -/
def detectLanguage (code : List Char) : Language :=
  let trimmedCode := trimText code
  if trimmedCode = [] then .Unknown
  else findLang patterns trimmedCode

/-! ### Rule engine -/

/-- Findings pushed for one line: every rule of `langRules`, in order, whose
regex matches the line emits a Finding at `lineNumber` with the trimmed line
as snippet. -/
def ruleFindingsForLine (langRules : List Rule) (lineNumber : Nat)
    (line : List Char) : List ErrorType :=
  langRules.filterMap fun rule =>
    if rule.regex line then
      some { line := lineNumber, message := rule.message,
             suggestion := rule.suggestion, type := rule.type,
             codeSnippet := some (trimText line) }
    else none

/-- The `lines.forEach` loop of `analyzeCodeByRules`: the line at 0-based
position `index + k` gets lineNumber `index + k + 1`. -/
def scanLines (langRules : List Rule) (index : Nat) : List (List Char) → List ErrorType
  | [] => []
  | line :: rest =>
      ruleFindingsForLine langRules (index + 1) line ++ scanLines langRules (index + 1) rest

/-- The source's `analyzeCodeByRules(lines, language, errors, tips)`:
mutation by `errors.push` is modelled as appending the emitted findings to
the `errors` accumulator; `tips` is passed through untouched (the function
never pushes a tip). -/
def analyzeCodeByRules (lines : List (List Char)) (language : Language)
    (errors : List ErrorType) (tips : List String) : List ErrorType × List String :=
  (errors ++ scanLines (rules language) 0 lines, tips)

/-- The long-line `forEach` of `analyzeGeneral`: lines of length > 100 push a
tip naming the 1-based line number and the length. -/
def longLineTips (index : Nat) : List (List Char) → List String
  | [] => []
  | line :: rest =>
      (if line.length > 100 then
        ["Line " ++ toString (index + 1) ++ " is long (" ++ toString line.length ++
          " chars). Consider splitting."]
      else []) ++ longLineTips (index + 1) rest

/-- The `lines.join("")` of `analyzeGeneral`. -/
def joinLines : List (List Char) → List Char
  | [] => []
  | l :: rest => l ++ joinLines rest

/-- Predicate of the `lines.findIndex` callback: the line contains
`while(true)` or `for(;;)`. -/
def hasLoopSub (l : List Char) : Bool :=
  listContains l "while(true)".toList || listContains l "for(;;)".toList

/-- The condition of `analyzeGeneral`'s infinite-loop branch: the
concatenation of all lines contains `while(true)` or `for(;;)`. -/
def hasLoopContent (lines : List (List Char)) : Bool :=
  listContains (joinLines lines) "while(true)".toList ||
    listContains (joinLines lines) "for(;;)".toList

/-- JavaScript `Array.prototype.findIndex` returning `some` 0-based index of
the first hit, `none` when there is none. -/
def findIdxOpt (p : α → Bool) : List α → Option Nat
  | [] => none
  | a :: rest => if p a then some 0 else (findIdxOpt p rest).map (· + 1)

/-- The `lines.findIndex(...) + 1` expression of the infinite-loop Finding:
1-based index of the first line containing either loop literal, `0` (from
`-1 + 1`) when no single line contains one. -/
def loopLine (lines : List (List Char)) : Nat :=
  match findIdxOpt hasLoopSub lines with
  | some i => i + 1
  | none => 0

/-- The Finding pushed by `analyzeGeneral`'s infinite-loop branch. -/
def loopFinding (lines : List (List Char)) : ErrorType :=
  { line := loopLine lines, message := "Potential infinite loop detected.",
    suggestion := "Add a break condition.", type := "logical" }

/-- The source's `analyzeGeneral(lines, errors, tips)`: long-line tips are
pushed onto `tips`, then the infinite-loop Finding onto `errors` when the
joined content contains a loop literal. -/
def analyzeGeneral (lines : List (List Char)) (errors : List ErrorType)
    (tips : List String) : List ErrorType × List String :=
  let newTips := tips ++ longLineTips 0 lines
  if hasLoopContent lines then (errors ++ [loopFinding lines], newTips)
  else (errors, newTips)

/-- The analysis pipeline of `analyzeCode` on already-split lines: fresh
empty collections, then `analyzeCodeByRules`, then `analyzeGeneral`. -/
def analyze (lines : List (List Char)) (language : Language) :
    List ErrorType × List String :=
  let p := analyzeCodeByRules lines language [] []
  analyzeGeneral lines p.1 p.2

/-! ### Helper lemmas -/

/-- Findings of an analysis run: the rule-scan findings followed by the
infinite-loop Finding when the joined content contains a loop literal. -/
theorem analyze_fst (lines : List (List Char)) (lang : Language) :
    (analyze lines lang).1 =
      scanLines (rules lang) 0 lines ++
        (if hasLoopContent lines then [loopFinding lines] else []) := by
  by_cases hc : hasLoopContent lines <;>
    simp [analyze, analyzeCodeByRules, analyzeGeneral, hc]

/-- Tips of an analysis run are exactly the long-line tips. -/
theorem analyze_snd (lines : List (List Char)) (lang : Language) :
    (analyze lines lang).2 = longLineTips 0 lines := by
  by_cases hc : hasLoopContent lines <;>
    simp [analyze, analyzeCodeByRules, analyzeGeneral, hc]

/-- A Finding emitted for one line carries that line's number and the type of
one of the rules. -/
theorem mem_ruleFindingsForLine (rs : List Rule) (n : Nat) (line : List Char)
    (f : ErrorType) (h : f ∈ ruleFindingsForLine rs n line) :
    f.line = n ∧ ∃ r ∈ rs, f.type = r.type := by
  obtain ⟨r, hr, heq⟩ := List.mem_filterMap.mp h
  by_cases hc : r.regex line = true
  · rw [if_pos hc] at heq
    cases Option.some.inj heq
    exact ⟨rfl, r, hr, rfl⟩
  · rw [if_neg hc] at heq
    exact absurd heq (Option.noConfusion)

/-- Every rule-scan Finding has a line number in `(idx, idx + length]` and a
type drawn from the rule list. -/
theorem scanLines_mem (rs : List Rule) (lines : List (List Char)) :
    ∀ (idx : Nat) (f : ErrorType), f ∈ scanLines rs idx lines →
      (idx + 1 ≤ f.line ∧ f.line ≤ idx + lines.length) ∧ ∃ r ∈ rs, f.type = r.type := by
  induction lines with
  | nil => intro idx f h; simp [scanLines] at h
  | cons line rest ih =>
      intro idx f h
      simp only [scanLines] at h
      rcases List.mem_append.mp h with h1 | h2
      · obtain ⟨hline, hr⟩ := mem_ruleFindingsForLine rs (idx + 1) line f h1
        refine ⟨⟨by omega, ?_⟩, hr⟩
        simp only [List.length_cons]
        omega
      · obtain ⟨⟨hb1, hb2⟩, hr⟩ := ih (idx + 1) f h2
        refine ⟨⟨by omega, ?_⟩, hr⟩
        simp only [List.length_cons]
        omega

/-- `findIdxOpt` misses exactly when no element satisfies the predicate. -/
theorem findIdxOpt_none_iff (p : α → Bool) (l : List α) :
    findIdxOpt p l = none ↔ ∀ a ∈ l, p a = false := by
  induction l with
  | nil => simp [findIdxOpt]
  | cons a rest ih =>
      by_cases hp : p a
      · simp [findIdxOpt, hp, List.forall_mem_cons]
      · have hpf : p a = false := by simpa using hp
        simp [findIdxOpt, hpf, ih, List.forall_mem_cons]

/-- A hit of `findIdxOpt` is a position inside the list. -/
theorem findIdxOpt_some_lt (p : α → Bool) (l : List α) :
    ∀ (i : Nat), findIdxOpt p l = some i → i < l.length := by
  induction l with
  | nil => intro i h; simp [findIdxOpt] at h
  | cons a rest ih =>
      intro i h
      by_cases hp : p a
      · rw [findIdxOpt, if_pos hp] at h
        cases Option.some.inj h
        simp
      · rw [findIdxOpt, if_neg hp] at h
        rcases hrest : findIdxOpt p rest with _ | j
        · rw [hrest] at h
          exact absurd h (by simp)
        · rw [hrest, Option.map_some'] at h
          cases Option.some.inj h
          have := ih j hrest
          simp only [List.length_cons]
          omega

/-- `findIdxOpt` returns the first position whose element satisfies the
predicate. -/
theorem findIdxOpt_first (p : α → Bool) (l : List α) :
    ∀ (i : Nat) (h : i < l.length), p (l.get ⟨i, h⟩) = true →
      (∀ j (hj : j < i), p (l.get ⟨j, Nat.lt_trans hj h⟩) = false) →
      findIdxOpt p l = some i := by
  induction l with
  | nil => intro i h; exact absurd h (by simp)
  | cons a rest ih =>
      intro i h hp hfirst
      cases i with
      | zero =>
          have hpa : p a = true := hp
          simp [findIdxOpt, hpa]
      | succ i' =>
          have ha : p a = false := hfirst 0 (Nat.succ_pos i')
          have hrest := ih i' (Nat.lt_of_succ_lt_succ h) hp
            (fun j hj => hfirst (j + 1) (Nat.succ_lt_succ hj))
          simp [findIdxOpt, ha, hrest]

/-- No configured rule has severity "logical". -/
theorem rules_type_ne_logical :
    ∀ (lang : Language), ∀ r ∈ rules lang, (r.type == "logical") = false := by
  intro lang
  cases lang <;> decide

/-- A line longer than 100 characters contributes its tip to `longLineTips`. -/
theorem longLineTips_mem (lines : List (List Char)) :
    ∀ (idx i : Nat) (h : i < lines.length), 100 < (lines.get ⟨i, h⟩).length →
      ("Line " ++ toString (idx + i + 1) ++ " is long (" ++
          toString (lines.get ⟨i, h⟩).length ++ " chars). Consider splitting.") ∈
        longLineTips idx lines := by
  induction lines with
  | nil => intro idx i h; exact absurd h (by simp)
  | cons line rest ih =>
      intro idx i h hlen
      cases i with
      | zero =>
          simp only [longLineTips]
          refine List.mem_append.mpr (Or.inl ?_)
          rw [if_pos (show line.length > 100 from hlen)]
          simp
      | succ i' =>
          have hstep := ih (idx + 1) i' (Nat.lt_of_succ_lt_succ h) hlen
          simp only [longLineTips]
          refine List.mem_append.mpr (Or.inr ?_)
          have harith : idx + (i' + 1) + 1 = idx + 1 + i' + 1 := by omega
          rw [harith]
          exact hstep

/-! ### Claim theorems -/

/-- Claim C1, counterexample: on lines `["while(tr", "ue)"]` the joined
content contains `while(true)` although no single line does, so the
infinite-loop Finding is reported at line 0, outside `[1, 2]`. -/
theorem claim1_counterexample :
    ¬ (∀ f ∈ (analyze ["while(tr".toList, "ue)".toList] Language.Unknown).1,
        1 ≤ f.line ∧
          f.line ≤ (["while(tr".toList, "ue)".toList] : List (List Char)).length) := by
  decide

/-- Claim C1, amended: every Finding's lineNumber is at most the number of
lines, and is at least 1 except for the infinite-loop Finding, which is 0
exactly when no single line contains `while(true)` or `for(;;)` (the loop
literal only appears across a line boundary of the joined content). -/
theorem claim1_line_bounds (lines : List (List Char)) (lang : Language) :
    ∀ f ∈ (analyze lines lang).1,
      f.line ≤ lines.length ∧
        (1 ≤ f.line ∨
          (f.line = 0 ∧ f.message = "Potential infinite loop detected." ∧
            ∀ l ∈ lines, hasLoopSub l = false)) := by
  intro f hf
  rw [analyze_fst] at hf
  rcases List.mem_append.mp hf with hmem | hmem
  · obtain ⟨⟨h1, h2⟩, -⟩ := scanLines_mem (rules lang) lines 0 f hmem
    exact ⟨by omega, Or.inl (by omega)⟩
  · by_cases hc : hasLoopContent lines
    · rw [if_pos hc] at hmem
      cases List.mem_singleton.mp hmem
      rcases hfind : findIdxOpt hasLoopSub lines with _ | i
      · refine ⟨by simp [loopFinding, loopLine, hfind],
          Or.inr ⟨by simp [loopFinding, loopLine, hfind], rfl, ?_⟩⟩
        exact (findIdxOpt_none_iff hasLoopSub lines).mp hfind
      · have hlt := findIdxOpt_some_lt hasLoopSub lines i hfind
        exact ⟨by simp only [loopFinding, loopLine, hfind]; omega,
          Or.inl (by simp only [loopFinding, loopLine, hfind]; omega)⟩
    · rw [if_neg hc] at hmem
      exact absurd hmem (List.not_mem_nil f)

/-- Claim C1, witness for the amended theorem at a concrete run. -/
theorem claim1_witness :
    (loopFinding ["while(true)x".toList]).line ≤
        ([("while(true)x".toList)] : List (List Char)).length ∧
      (1 ≤ (loopFinding ["while(true)x".toList]).line ∨
        ((loopFinding ["while(true)x".toList]).line = 0 ∧
          (loopFinding ["while(true)x".toList]).message =
            "Potential infinite loop detected." ∧
          ∀ l ∈ ([("while(true)x".toList)] : List (List Char)),
            hasLoopSub l = false)) :=
  claim1_line_bounds ["while(true)x".toList] Language.Unknown
    (loopFinding ["while(true)x".toList]) (by decide)

/-- Claim C2: when the joined content contains `while(true)` or `for(;;)`,
the run emits exactly one Finding of severity "logical", the loop Finding;
its line number is the 1-based index of the first line containing either
literal, and 0 when no single line contains one.  When the joined content
contains neither literal, no "logical" Finding is emitted. -/
theorem claim2_infinite_loop (lines : List (List Char)) (lang : Language) :
    (hasLoopContent lines = true →
      ((analyze lines lang).1.filter (fun f => f.type == "logical") =
          [loopFinding lines] ∧
        (loopFinding lines).type = "logical" ∧
        (∀ i (h : i < lines.length), hasLoopSub (lines.get ⟨i, h⟩) = true →
          (∀ j (hj : j < i), hasLoopSub (lines.get ⟨j, Nat.lt_trans hj h⟩) = false) →
          (loopFinding lines).line = i + 1) ∧
        ((∀ l ∈ lines, hasLoopSub l = false) → (loopFinding lines).line = 0)))
    ∧ (hasLoopContent lines = false →
        (analyze lines lang).1.filter (fun f => f.type == "logical") = []) := by
  have hscan : (scanLines (rules lang) 0 lines).filter (fun f => f.type == "logical") = [] := by
    refine List.filter_eq_nil_iff.mpr fun f hf => ?_
    obtain ⟨-, r, hr, hty⟩ := scanLines_mem (rules lang) lines 0 f hf
    simpa [hty] using rules_type_ne_logical lang r hr
  constructor
  · intro hc
    refine ⟨?_, rfl, ?_, ?_⟩
    · rw [analyze_fst, List.filter_append, hscan, if_pos hc]
      simp [loopFinding]
    · intro i h hp hfirst
      have := findIdxOpt_first hasLoopSub lines i h hp hfirst
      simp [loopFinding, loopLine, this]
    · intro hall
      have := (findIdxOpt_none_iff hasLoopSub lines).mpr hall
      simp [loopFinding, loopLine, this]
  · intro hc
    rw [analyze_fst, List.filter_append, hscan, if_neg (by simp [hc])]
    simp

/-- Claim C2, witness: the spec's example `["a", "while(true){}", "b"]`
yields the single "logical" Finding at line 2. -/
theorem claim2_witness :
    ((analyze ["a".toList, "while(true)\x7b\x7d".toList, "b".toList]
          Language.JavaScript).1.filter (fun f => f.type == "logical") =
        [loopFinding ["a".toList, "while(true)\x7b\x7d".toList, "b".toList]]) ∧
      (loopFinding ["a".toList, "while(true)\x7b\x7d".toList, "b".toList]).line = 2 := by
  have h := (claim2_infinite_loop
    ["a".toList, "while(true)\x7b\x7d".toList, "b".toList] Language.JavaScript).1
    (by decide)
  exact ⟨h.1, by decide⟩

/-- Claim C3: the detector returns Unknown exactly when the trimmed text is
empty or no candidate pattern matches; in particular on `""` and `"   "`. -/
theorem claim3_detect_unknown :
    (∀ s : List Char, detectLanguage s = Language.Unknown ↔
      (trimText s = [] ∨ ∀ c ∈ patterns, c.pattern (trimText s) = false))
    ∧ detectLanguage "".toList = Language.Unknown
    ∧ detectLanguage "   ".toList = Language.Unknown := by
  have hne : ∀ c ∈ patterns, c.language ≠ Language.Unknown := by decide
  refine ⟨fun s => ?_, by decide, by decide⟩
  by_cases he : trimText s = []
  · simp [detectLanguage, he]
  · have hiff : ∀ (cs : List Candidate), (∀ c ∈ cs, c.language ≠ Language.Unknown) →
        (findLang cs (trimText s) = Language.Unknown ↔
          ∀ c ∈ cs, c.pattern (trimText s) = false) := by
      intro cs
      induction cs with
      | nil => simp [findLang]
      | cons c rest ih =>
          intro hcs
          by_cases hp : c.pattern (trimText s) = true
          · simp [findLang, hp, hcs c (List.mem_cons_self c rest), List.forall_mem_cons]
          · have hpf : c.pattern (trimText s) = false := by simpa using hp
            simp [findLang, hpf, ih fun d hd => hcs d (List.mem_cons_of_mem c hd),
              List.forall_mem_cons]
    simp only [detectLanguage, if_neg he]
    rw [hiff patterns hne]
    simp [he]

/-- Claim C3, witness: a text matching no candidate is classified Unknown. -/
theorem claim3_witness : detectLanguage "qq".toList = Language.Unknown :=
  (claim3_detect_unknown.1 "qq".toList).mpr (Or.inr (by decide))

/-- Claim C4: the JavaScript candidate is first in the ordered list, so any
text whose trimmed form matches the JavaScript pattern is classified
JavaScript, whatever later candidates would also match. -/
theorem claim4_first_match_wins (s : List Char)
    (h : jsDetectRegex (trimText s) = true) :
    detectLanguage s = Language.JavaScript := by
  have hne : trimText s ≠ [] := by
    intro he
    rw [he] at h
    exact absurd h (by decide)
  simp [detectLanguage, if_neg hne, patterns, findLang, h]

/-- Claim C4, witness: `const x = 5` followed by an HTML-like substring that
the HTML candidate would match is still classified JavaScript. -/
theorem claim4_witness :
    htmlDetectRegex (trimText "const x = 5\n<div class=\"x\">".toList) = true ∧
      detectLanguage "const x = 5\n<div class=\"x\">".toList = Language.JavaScript :=
  ⟨by decide, claim4_first_match_wins "const x = 5\n<div class=\"x\">".toList (by decide)⟩

/-- Claim C5: the analysis is total; on the empty line sequence it returns
empty findings and tips for every language, and the rule lookup is a total
function into (possibly empty) rule lists. -/
theorem claim5_analyze_total :
    (∀ lang : Language, analyze [] lang = ([], [])) ∧
      (∀ lang : Language, ∃ rs : List Rule, rules lang = rs) :=
  ⟨fun _ => rfl, fun lang => ⟨rules lang, rfl⟩⟩

/-- Claim C6: a run only appends to the collections it is handed, and what
it appends is exactly the result of a fresh run on the same input, so output
depends only on the lines and the language: two runs on identical input
produce identical findings and tips. -/
theorem claim6_deterministic (lines : List (List Char)) (lang : Language)
    (errors : List ErrorType) (tips : List String) :
    (analyzeGeneral lines (analyzeCodeByRules lines lang errors tips).1
        (analyzeCodeByRules lines lang errors tips).2) =
      (errors ++ (analyze lines lang).1, tips ++ (analyze lines lang).2) := by
  by_cases hc : hasLoopContent lines <;>
    simp [analyze, analyzeCodeByRules, analyzeGeneral, hc]

/-- Claim C7: the single line `x == 5` under the JavaScript rules yields
exactly one Finding, of severity "warning", whose suggestion recommends
`===`. -/
theorem claim7_loose_equality :
    (analyze ["x == 5".toList] Language.JavaScript).1 =
      [{ line := 1, message := "Loose equality (==) found.",
         suggestion := "Use === for strict equality checks.", type := "warning",
         codeSnippet := some "x == 5".toList }] ∧
      listContains "Use === for strict equality checks.".toList "===".toList = true := by
  decide

/-- Claim C8: every line longer than 100 characters contributes a tip naming
its 1-based line number and its length; a single line of 150 characters
yields exactly that one tip, for every language. -/
theorem claim8_long_line_tip :
    (∀ (lang : Language) (lines : List (List Char)) (i : Nat) (h : i < lines.length),
        100 < (lines.get ⟨i, h⟩).length →
          ("Line " ++ toString (i + 1) ++ " is long (" ++
              toString (lines.get ⟨i, h⟩).length ++ " chars). Consider splitting.") ∈
            (analyze lines lang).2)
    ∧ ∀ lang : Language, (analyze [List.replicate 150 'a'] lang).2 =
        ["Line 1 is long (150 chars). Consider splitting."] := by
  constructor
  · intro lang lines i h hlen
    rw [analyze_snd]
    simpa using longLineTips_mem lines 0 i h hlen
  · intro lang
    rw [analyze_snd]
    decide

/-- Claim C8, witness: the 150-character line at index 0, analyzed as Java. -/
theorem claim8_witness :
    ("Line " ++ toString (0 + 1) ++ " is long (" ++
        toString ((([List.replicate 150 'a'] : List (List Char)).get
          ⟨0, by decide⟩).length) ++ " chars). Consider splitting.") ∈
      (analyze [List.replicate 150 'a'] Language.Java).2 :=
  claim8_long_line_tip.1 Language.Java [List.replicate 150 'a'] 0 (by decide) (by decide)

/-- Claim C9: the tips of a run do not depend on the language: per-language
rules only emit Findings, and all tips come from the generic long-line
check. -/
theorem claim9_tips_language_free (lines : List (List Char)) (l1 l2 : Language) :
    (analyze lines l1).2 = (analyze lines l2).2 := by
  rw [analyze_snd, analyze_snd]

/-- Claim C10: the loose-equality rule also fires on strict equality: the
line `a === b` contains no `==` outside `===`, yet the JavaScript analysis
emits the "Loose equality (==) found." warning, because `==[^=]` matches the
last two `=` of `===` and the following character. -/
theorem claim10_strict_equality_fires :
    (analyze ["a === b".toList] Language.JavaScript).1 =
      [{ line := 1, message := "Loose equality (==) found.",
         suggestion := "Use === for strict equality checks.", type := "warning",
         codeSnippet := some "a === b".toList }] := by
  decide

end DebugGPT
